import Mathlib

/-!
Verification of the collatz batch solver (src/collatz.rs, src/main.rs).

The Rust code is shallowly embedded: `usize` values become `Nat` (no input in
any settled property approaches 2^64, so wrap-around never occurs), loops whose
termination depends on the unproven Collatz conjecture take an explicit `fuel`
argument and return `Option Nat` (`none` = the loop has not finished within
`fuel` iterations, i.e. divergence is modelled as `none` at every fuel), and
the driver loop of `solve` returns, besides its trace of submitted batches,
a flag telling whether the loop finished within the given fuel.
-/

namespace Collatz

/-- Inner function `_recurse` of `recursive` (src/collatz.rs lines 19-25):
matches on `num`, returning `(num, count)` at 1, recursing on `num / 2`
(even) or `3 * num + 1` (odd) with `count + 1`.  Fuel added; `none` means
the recursion has not reached 1 within `fuel` unfoldings. -/
def recurseAux : Nat → Nat → Nat → Option (Nat × Nat)
  | 0, num, count => if num = 1 then some (num, count) else none
  | fuel + 1, num, count =>
    if num = 1 then some (num, count)
    else if num % 2 = 0 then recurseAux fuel (num / 2) (count + 1)
    else recurseAux fuel (3 * num + 1) (count + 1)

/-- `recursive` (src/collatz.rs lines 18-27): `_recurse(num, 0).1`, the
count component of the pair. -/
def recursive (fuel num : Nat) : Option Nat :=
  (recurseAux fuel num 0).map Prod.snd

/-- Loop of `simple` (src/collatz.rs lines 31-41): `while num != 1`,
halve when even, `3 * num + 1` when odd, `count += 1` each iteration. -/
def simpleLoop : Nat → Nat → Nat → Option Nat
  | 0, num, count => if num = 1 then some count else none
  | fuel + 1, num, count =>
    if num = 1 then some count
    else if num % 2 = 0 then simpleLoop fuel (num / 2) (count + 1)
    else simpleLoop fuel (3 * num + 1) (count + 1)

/-- `simple` (src/collatz.rs lines 31-41): the loop started at `count = 0`. -/
def simple (fuel num : Nat) : Option Nat := simpleLoop fuel num 0

/-- Loop of `shortcut` (src/collatz.rs lines 45-54): the odd case folds two
iteration steps into one, `((3 * num + 1) / 2, count + 2)`. -/
def shortcutLoop : Nat → Nat → Nat → Option Nat
  | 0, num, count => if num = 1 then some count else none
  | fuel + 1, num, count =>
    if num = 1 then some count
    else if num % 2 = 0 then shortcutLoop fuel (num / 2) (count + 1)
    else shortcutLoop fuel ((3 * num + 1) / 2) (count + 2)

/-- `shortcut` (src/collatz.rs lines 45-54). -/
def shortcut (fuel num : Nat) : Option Nat := shortcutLoop fuel num 0

/-- Loop of `faster_shortcut` (src/collatz.rs lines 73-81): iterates
`while curr_num >= num`, i.e. exits as soon as the current value drops
below the original input. -/
def fasterLoop (num : Nat) : Nat → Nat → Nat → Option Nat
  | 0, curr, count => if curr < num then some count else none
  | fuel + 1, curr, count =>
    if curr < num then some count
    else if curr % 2 = 0 then fasterLoop num fuel (curr / 2) (count + 1)
    else fasterLoop num fuel ((3 * curr + 1) / 2) (count + 2)

/-- `faster_shortcut` (src/collatz.rs lines 68-82): special-cases
`num == 1` to return 1, otherwise runs the early-exit loop from
`curr_num = num`, `count = 0`. -/
def faster_shortcut (fuel num : Nat) : Option Nat :=
  if num = 1 then some 1 else fasterLoop num fuel num 0

/-- `usize::trailing_zeros` on a positive argument, with fuel; at the single
call site the fuel passed is the argument itself, which always suffices
(the recursion depth is at most `log2 n + 1 ≤ n` for `n ≥ 1`). -/
def trailing_zeros : Nat → Nat → Nat
  | 0, _ => 0
  | fuel + 1, n =>
    if n ≠ 0 ∧ n % 2 = 0 then trailing_zeros fuel (n / 2) + 1 else 0

/-- Loop of `bitwise` (src/collatz.rs lines 92-99): `while curr_num >= num`;
odd case `(3 * curr + 1) / 2`, even case `curr >> curr.trailing_zeros()`
(all trailing-zero divisions in one operation), `count += 1` either way.
The source `match curr_num % 2` arm `_ => panic!(..)` is unreachable since
`curr % 2` is 0 or 1, so it is not modelled. -/
def bitwiseLoop (num : Nat) : Nat → Nat → Nat → Option Nat
  | 0, curr, count => if curr < num then some count else none
  | fuel + 1, curr, count =>
    if curr < num then some count
    else if curr % 2 = 1 then bitwiseLoop num fuel ((3 * curr + 1) / 2) (count + 1)
    else bitwiseLoop num fuel (curr >>> trailing_zeros curr curr) (count + 1)

/-- `bitwise` (src/collatz.rs lines 86-101): special-cases `num == 1` to
return 1, otherwise the early-exit loop from `curr_num = num`, `count = 0`. -/
def bitwise (fuel num : Nat) : Option Nat :=
  if num = 1 then some 1 else bitwiseLoop num fuel num 0

/-- Worker-closure accumulation in `solve` (src/collatz.rs lines 139-145):
`max_steps = 0`, then `for num in batch_start..batch_end`,
`max_steps = max(max_steps, bitwise(num))`.  `none` propagates divergence of
any single `bitwise` call (the worker would hang). -/
def batchMaxSteps (fuel bstart bend : Nat) : Option Nat :=
  List.foldlM (fun acc num => (bitwise fuel num).map (Nat.max acc))
    0 (List.range' bstart (bend - bstart))

/-- Driver partition loop of `solve` (src/collatz.rs lines 134-158):
`while batch_start < end { batch_end = min(batch_start + batch_size, end);
pool.execute(..); batch_start = batch_end }`.  Returns the list of batches
submitted (in submission order) and whether the loop has terminated within
`fuel` iterations (`fuel` exhausted with the condition still true = `false`,
modelling an unfinished loop prefix). -/
def solve : Nat → Nat → Nat → Nat → List (Nat × Nat) × Bool
  | 0, s, e, _ => ([], decide (e ≤ s))
  | fuel + 1, s, e, bs =>
    if s < e then
      ((s, min (s + bs) e) :: (solve fuel (min (s + bs) e) e bs).1,
       (solve fuel (min (s + bs) e) e bs).2)
    else ([], true)

/-- The multiset of domain elements covered by a list of batches, in order:
each batch `(bstart, bend)` contributes the elements of `[bstart, bend)`. -/
def coveredRange : List (Nat × Nat) → List Nat
  | [] => []
  | p :: ps => List.range' p.1 (p.2 - p.1) ++ coveredRange ps

/-- Argument validation in `get_args` (src/main.rs lines 105-118): the only
check performed is `end > 0 && end < start`, which exits with a CLI error;
`true` means the arguments are accepted. -/
def get_args_ok (start e : Nat) : Bool :=
  if 0 < e ∧ e < start then false else true

/-- `BatchSummary` (src/collatz.rs lines 7-14).  The `start_time` and
`end_time` wall-clock fields are outside the shallow embedding (real time)
and are omitted; `stop` stands for the Rust field `end`, a Lean keyword. -/
structure BatchSummary where
  start : Nat
  stop : Nat
  max_steps : Nat
  deriving DecidableEq

/-- Outcome of the worker closure's send: either the summary was delivered,
or the worker thread aborted (the Rust `.expect("channel broken!")` panic). -/
inductive SendOutcome where
  | delivered : BatchSummary → SendOutcome
  | panicked : SendOutcome
  deriving DecidableEq

/-- `Sender::send` on the result channel: succeeds exactly when the receiver
side still exists, and fails with `SendError` (modelled as `Except.error`)
when the consumer is gone. -/
def channelSend (receiver_alive : Bool) (s : BatchSummary) : Except Unit BatchSummary :=
  if receiver_alive then Except.ok s else Except.error ()

/-- Worker closure of `solve` (src/collatz.rs lines 138-156): computes the
batch maximum and then performs exactly one `send(..).expect(..)`; the
returned pair counts the send attempts (always one — straight-line code,
no retry) and gives the outcome.  `none` = the kernel loop diverged and the
worker never reaches the send. -/
def workerBody (fuel bstart bend : Nat) (receiver_alive : Bool) :
    Option (Nat × SendOutcome) :=
  (batchMaxSteps fuel bstart bend).map fun m =>
    match channelSend receiver_alive ⟨bstart, bend, m⟩ with
    | Except.ok s => (1, SendOutcome.delivered s)
    | Except.error _ => (1, SendOutcome.panicked)

example : simple 111 27 = some 111 := by decide
example : simple 20 7 = some 16 := by decide
example : bitwise 20 7 = some 6 := by decide
example : batchMaxSteps 100 1 10 = some 6 := by decide
example : solve 1 1 2 0 = ([(1, 1)], false) := by decide
example : solve 3 1 0 10 = ([], true) := by decide

/-- A `solve` call whose domain is already empty (`end ≤ start`, covering the
bounded-empty and the `end = 0` sentinel cases) submits no batches and
finishes at once, at any fuel. -/
theorem solve_empty (fuel s e bs : Nat) (h : e ≤ s) : solve fuel s e bs = ([], true) := by
  cases fuel with
  | zero => simp [solve, h]
  | succ f => simp [solve, Nat.not_lt.mpr h]

/-- With `end = 0` the loop condition `batch_start < end` is false from the
start: nothing is submitted and the loop terminates immediately. -/
theorem solve_end_zero (fuel s bs : Nat) : solve fuel s 0 bs = ([], true) :=
  solve_empty fuel s 0 bs (Nat.zero_le s)

/-- With `batch_size = 0` and a non-empty domain, `batch_end = min
(batch_start + 0) end = batch_start`: the cursor never advances, so no fuel
ever finishes the loop. -/
theorem solve_bs_zero : ∀ fuel s e, s < e → (solve fuel s e 0).2 = false := by
  intro fuel
  induction fuel with
  | zero =>
    intro s e h
    simp [solve]
    omega
  | succ f ih =>
    intro s e h
    have hm : min (s + 0) e = s := by omega
    simp only [solve, if_pos h, hm]
    exact ih s e h

/-- Main invariant of the partition loop: with `batch_size ≥ 1` and fuel at
least the domain size, the loop finishes, submits exactly
`⌈(e - s) / bs⌉` batches, the batches cover `[s, e)` exactly once and in
order, every batch is a non-empty sub-range of `[s, e)`, and the batches are
pairwise disjoint (each ends no later than the next begins). -/
theorem solve_batch_spec (bs : Nat) (hbs : 1 ≤ bs) :
    ∀ fuel s e, e - s ≤ fuel →
      (solve fuel s e bs).2 = true ∧
      (solve fuel s e bs).1.length = (e - s + bs - 1) / bs ∧
      coveredRange (solve fuel s e bs).1 = List.range' s (e - s) ∧
      (∀ p ∈ (solve fuel s e bs).1, s ≤ p.1 ∧ p.1 < p.2 ∧ p.2 ≤ e) ∧
      ((solve fuel s e bs).1.Pairwise fun p q => p.2 ≤ q.1) := by
  intro fuel
  induction fuel with
  | zero =>
    intro s e h
    have he : e ≤ s := by omega
    have h0 : e - s = 0 := by omega
    rw [solve_empty 0 s e bs he]
    refine ⟨rfl, ?_, ?_, ?_, ?_⟩
    · simp [h0]
      exact (Nat.div_eq_of_lt (by omega)).symm
    · simp [coveredRange, h0]
    · simp
    · simp
  | succ f ih =>
    intro s e h
    by_cases hlt : s < e
    · have hunf : solve (f + 1) s e bs =
          ((s, min (s + bs) e) :: (solve f (min (s + bs) e) e bs).1,
           (solve f (min (s + bs) e) e bs).2) := by
        simp [solve, hlt]
      set be := min (s + bs) e with hbe
      have hsbe : s < be := by omega
      have hbee : be ≤ e := by omega
      have hf : e - be ≤ f := by omega
      obtain ⟨ih1, ih2, ih3, ih4, ih5⟩ := ih be e hf
      rw [hunf]
      refine ⟨ih1, ?_, ?_, ?_, ?_⟩
      · simp only [List.length_cons, ih2]
        have hd : e - s + bs - 1 = (e - s - 1) + bs := by omega
        rw [hd, Nat.add_div_right _ (by omega)]
        congr 1
        by_cases hc : s + bs ≤ e
        · have hx : e - be + bs - 1 = e - s - 1 := by omega
          rw [hx]
        · have h1 : e - be = 0 := by omega
          rw [h1, Nat.div_eq_of_lt (by omega), Nat.div_eq_of_lt (by omega)]
      · simp only [coveredRange, ih3]
        have h1 : s + (be - s) = be := by omega
        have happ := List.range'_append_1 s (be - s) (e - be)
        rw [h1] at happ
        rw [happ]
        congr 1
        omega
      · intro p hp
        rcases List.mem_cons.mp hp with hphead | hptail
        · rw [hphead]
          exact ⟨Nat.le_refl s, hsbe, hbee⟩
        · obtain ⟨hp1, hp2, hp3⟩ := ih4 p hptail
          exact ⟨by omega, hp2, hp3⟩
      · rw [List.pairwise_cons]
        refine ⟨?_, ih5⟩
        intro q hq
        exact (ih4 q hq).1
    · have he : e ≤ s := by omega
      have h0 : e - s = 0 := by omega
      rw [solve_empty (f + 1) s e bs he]
      refine ⟨rfl, ?_, ?_, ?_, ?_⟩
      · simp [h0]
        exact (Nat.div_eq_of_lt (by omega)).symm
      · simp [coveredRange, h0]
      · simp
      · simp

/-- `simpleLoop` at `num = 1` returns `count` at any fuel (loop condition
already false). -/
theorem simpleLoop_one (fuel count : Nat) : simpleLoop fuel 1 count = some count := by
  cases fuel <;> simp [simpleLoop]

/-- `shortcutLoop` at `num = 1` returns `count` at any fuel. -/
theorem shortcutLoop_one (fuel count : Nat) : shortcutLoop fuel 1 count = some count := by
  cases fuel <;> simp [shortcutLoop]

/-- `_recurse` computes the same partial function as the `simple` loop: the
pair's count component agrees step by step. -/
theorem recurseAux_map :
    ∀ fuel num count, (recurseAux fuel num count).map Prod.snd = simpleLoop fuel num count := by
  intro fuel
  induction fuel with
  | zero =>
    intro num count
    by_cases h1 : num = 1 <;> simp [recurseAux, simpleLoop, h1]
  | succ f ih =>
    intro num count
    by_cases h1 : num = 1
    · simp [recurseAux, simpleLoop, h1]
    · by_cases h2 : num % 2 = 0 <;> simp [recurseAux, simpleLoop, h1, h2, ih]

/-- Fuel monotonicity of the `simple` loop: a result obtained with some fuel
is stable under more fuel. -/
theorem simpleLoop_mono :
    ∀ f g num count c, f ≤ g → simpleLoop f num count = some c →
      simpleLoop g num count = some c := by
  intro f
  induction f with
  | zero =>
    intro g num count c _ h
    by_cases h1 : num = 1
    · subst h1
      rw [simpleLoop_one] at h
      rw [simpleLoop_one]
      exact h
    · simp [simpleLoop, h1] at h
  | succ f ih =>
    intro g num count c hle h
    by_cases h1 : num = 1
    · subst h1
      rw [simpleLoop_one] at h
      rw [simpleLoop_one]
      exact h
    · cases g with
      | zero => omega
      | succ g' =>
        by_cases h2 : num % 2 = 0
        · simp only [simpleLoop, if_neg h1, if_pos h2] at h ⊢
          exact ih g' _ _ _ (by omega) h
        · simp only [simpleLoop, if_neg h1, if_neg h2] at h ⊢
          exact ih g' _ _ _ (by omega) h

/-- Fuel monotonicity of the `shortcut` loop. -/
theorem shortcutLoop_mono :
    ∀ f g num count c, f ≤ g → shortcutLoop f num count = some c →
      shortcutLoop g num count = some c := by
  intro f
  induction f with
  | zero =>
    intro g num count c _ h
    by_cases h1 : num = 1
    · subst h1
      rw [shortcutLoop_one] at h
      rw [shortcutLoop_one]
      exact h
    · simp [shortcutLoop, h1] at h
  | succ f ih =>
    intro g num count c hle h
    by_cases h1 : num = 1
    · subst h1
      rw [shortcutLoop_one] at h
      rw [shortcutLoop_one]
      exact h
    · cases g with
      | zero => omega
      | succ g' =>
        by_cases h2 : num % 2 = 0
        · simp only [shortcutLoop, if_neg h1, if_pos h2] at h ⊢
          exact ih g' _ _ _ (by omega) h
        · simp only [shortcutLoop, if_neg h1, if_neg h2] at h ⊢
          exact ih g' _ _ _ (by omega) h

/-- Soundness of the shortcut: a `shortcut`-loop run of `f` iterations is
simulated by at most `2 * f` iterations of the `simple` loop, with the same
final count (the combined odd step `(3n+1)/2, count+2` expands into the odd
step and the following even step of `simple`). -/
theorem shortcutLoop_to_simpleLoop :
    ∀ f num count c, shortcutLoop f num count = some c →
      simpleLoop (2 * f) num count = some c := by
  intro f
  induction f with
  | zero =>
    intro num count c h
    by_cases h1 : num = 1
    · subst h1
      rw [shortcutLoop_one] at h
      rw [simpleLoop_one]
      exact h
    · simp [shortcutLoop, h1] at h
  | succ f ih =>
    intro num count c h
    by_cases h1 : num = 1
    · subst h1
      rw [shortcutLoop_one] at h
      rw [simpleLoop_one]
      exact h
    · have hunf : 2 * (f + 1) = (2 * f + 1) + 1 := by omega
      rw [hunf]
      by_cases h2 : num % 2 = 0
      · simp only [shortcutLoop, if_neg h1, if_pos h2] at h
        simp only [simpleLoop, if_neg h1, if_pos h2]
        exact simpleLoop_mono (2 * f) (2 * f + 1) _ _ _ (by omega) (ih _ _ _ h)
      · simp only [shortcutLoop, if_neg h1, if_neg h2] at h
        have h3 : (3 * num + 1) % 2 = 0 := by omega
        have h4 : ¬ (3 * num + 1) = 1 := by omega
        simp only [simpleLoop, if_neg h1, if_neg h2, if_neg h4, if_pos h3]
        have := ih _ _ _ h
        simpa [Nat.add_assoc] using this

/-- Completeness of the shortcut: the `shortcut` loop needs no more fuel than
the `simple` loop, and produces the same count. -/
theorem simpleLoop_to_shortcutLoop :
    ∀ f num count c, simpleLoop f num count = some c →
      shortcutLoop f num count = some c := by
  intro f
  induction f with
  | zero =>
    intro num count c h
    by_cases h1 : num = 1
    · subst h1
      rw [simpleLoop_one] at h
      rw [shortcutLoop_one]
      exact h
    · simp [simpleLoop, h1] at h
  | succ f ih =>
    intro num count c h
    by_cases h1 : num = 1
    · subst h1
      rw [simpleLoop_one] at h
      rw [shortcutLoop_one]
      exact h
    · by_cases h2 : num % 2 = 0
      · simp only [simpleLoop, if_neg h1, if_pos h2] at h
        simp only [shortcutLoop, if_neg h1, if_pos h2]
        exact ih _ _ _ h
      · simp only [simpleLoop, if_neg h1, if_neg h2] at h
        have h3 : (3 * num + 1) % 2 = 0 := by omega
        have h4 : ¬ (3 * num + 1) = 1 := by omega
        cases f with
        | zero => simp [simpleLoop, h4] at h
        | succ f' =>
          simp only [simpleLoop, if_neg h4, if_pos h3] at h
          have hlift := simpleLoop_mono f' (f' + 1) _ _ _ (by omega) h
          have hsc := ih _ _ _ hlift
          simp only [shortcutLoop, if_neg h1, if_neg h2]
          simpa [Nat.add_assoc] using hsc

/-- The `simple` loop's count only grows: the result dominates the count the
loop was entered with. -/
theorem simpleLoop_count_le :
    ∀ f num count c, simpleLoop f num count = some c → count ≤ c := by
  intro f
  induction f with
  | zero =>
    intro num count c h
    by_cases h1 : num = 1
    · simp [simpleLoop, h1] at h
      omega
    · simp [simpleLoop, h1] at h
  | succ f ih =>
    intro num count c h
    by_cases h1 : num = 1
    · simp [simpleLoop, h1] at h
      omega
    · by_cases h2 : num % 2 = 0
      · simp only [simpleLoop, if_neg h1, if_pos h2] at h
        have := ih _ _ _ h
        omega
      · simp only [simpleLoop, if_neg h1, if_neg h2] at h
        have := ih _ _ _ h
        omega

/-- The `shortcut` loop's count only grows. -/
theorem shortcutLoop_count_le :
    ∀ f num count c, shortcutLoop f num count = some c → count ≤ c := by
  intro f
  induction f with
  | zero =>
    intro num count c h
    by_cases h1 : num = 1
    · simp [shortcutLoop, h1] at h
      omega
    · simp [shortcutLoop, h1] at h
  | succ f ih =>
    intro num count c h
    by_cases h1 : num = 1
    · simp [shortcutLoop, h1] at h
      omega
    · by_cases h2 : num % 2 = 0
      · simp only [shortcutLoop, if_neg h1, if_pos h2] at h
        have := ih _ _ _ h
        omega
      · simp only [shortcutLoop, if_neg h1, if_neg h2] at h
        have := ih _ _ _ h
        omega

/-- The `faster_shortcut` loop's count only grows. -/
theorem fasterLoop_count_le (num : Nat) :
    ∀ f curr count c, fasterLoop num f curr count = some c → count ≤ c := by
  intro f
  induction f with
  | zero =>
    intro curr count c h
    by_cases h1 : curr < num
    · simp [fasterLoop, h1] at h
      omega
    · simp [fasterLoop, h1] at h
  | succ f ih =>
    intro curr count c h
    by_cases h1 : curr < num
    · simp [fasterLoop, h1] at h
      omega
    · by_cases h2 : curr % 2 = 0
      · simp only [fasterLoop, if_neg h1, if_pos h2] at h
        have := ih _ _ _ h
        omega
      · simp only [fasterLoop, if_neg h1, if_neg h2] at h
        have := ih _ _ _ h
        omega

/-- The `bitwise` loop's count only grows. -/
theorem bitwiseLoop_count_le (num : Nat) :
    ∀ f curr count c, bitwiseLoop num f curr count = some c → count ≤ c := by
  intro f
  induction f with
  | zero =>
    intro curr count c h
    by_cases h1 : curr < num
    · simp [bitwiseLoop, h1] at h
      omega
    · simp [bitwiseLoop, h1] at h
  | succ f ih =>
    intro curr count c h
    by_cases h1 : curr < num
    · simp [bitwiseLoop, h1] at h
      omega
    · by_cases h2 : curr % 2 = 1
      · simp only [bitwiseLoop, if_neg h1, if_pos h2] at h
        have := ih _ _ _ h
        omega
      · simp only [bitwiseLoop, if_neg h1, if_neg h2] at h
        have := ih _ _ _ h
        omega

/-- `recursive` and `simple` agree at every fuel and input (helper form). -/
theorem recursive_eq_simple_fn (fuel num : Nat) : recursive fuel num = simple fuel num :=
  recurseAux_map fuel num 0

/-- From `n ≥ 2` the `simple` loop runs at least one iteration, so its count
is at least 1. -/
theorem simple_pos (fuel n c : Nat) (hn : 2 ≤ n) (h : simple fuel n = some c) : 1 ≤ c := by
  have h1 : ¬ n = 1 := by omega
  cases fuel with
  | zero => simp [simple, simpleLoop, h1] at h
  | succ f =>
    by_cases h2 : n % 2 = 0
    · simp only [simple, simpleLoop, if_neg h1, if_pos h2] at h
      have := simpleLoop_count_le f _ _ _ h
      omega
    · simp only [simple, simpleLoop, if_neg h1, if_neg h2] at h
      have := simpleLoop_count_le f _ _ _ h
      omega

/-- From `n ≥ 2` the `shortcut` loop's count is at least 1. -/
theorem shortcut_pos (fuel n c : Nat) (hn : 2 ≤ n) (h : shortcut fuel n = some c) : 1 ≤ c := by
  have h1 : ¬ n = 1 := by omega
  cases fuel with
  | zero => simp [shortcut, shortcutLoop, h1] at h
  | succ f =>
    by_cases h2 : n % 2 = 0
    · simp only [shortcut, shortcutLoop, if_neg h1, if_pos h2] at h
      have := shortcutLoop_count_le f _ _ _ h
      omega
    · simp only [shortcut, shortcutLoop, if_neg h1, if_neg h2] at h
      have := shortcutLoop_count_le f _ _ _ h
      omega

/-- From `n ≥ 1` a terminating `faster_shortcut` returns at least 1 (1 by the
special case at `n = 1`, and from the first loop iteration otherwise). -/
theorem faster_shortcut_pos (fuel n c : Nat) (hn : 1 ≤ n)
    (h : faster_shortcut fuel n = some c) : 1 ≤ c := by
  by_cases h1 : n = 1
  · subst h1
    simp [faster_shortcut] at h
    omega
  · have h2 : ¬ n < n := by omega
    simp only [faster_shortcut, if_neg h1] at h
    cases fuel with
    | zero => simp [fasterLoop, h2] at h
    | succ f =>
      by_cases h3 : n % 2 = 0
      · simp only [fasterLoop, if_neg h2, if_pos h3] at h
        have := fasterLoop_count_le n f _ _ _ h
        omega
      · simp only [fasterLoop, if_neg h2, if_neg h3] at h
        have := fasterLoop_count_le n f _ _ _ h
        omega

/-- From `n ≥ 1` a terminating `bitwise` returns at least 1. -/
theorem bitwise_pos (fuel n c : Nat) (hn : 1 ≤ n)
    (h : bitwise fuel n = some c) : 1 ≤ c := by
  by_cases h1 : n = 1
  · subst h1
    simp [bitwise] at h
    omega
  · have h2 : ¬ n < n := by omega
    simp only [bitwise, if_neg h1] at h
    cases fuel with
    | zero => simp [bitwiseLoop, h2] at h
    | succ f =>
      by_cases h3 : n % 2 = 1
      · simp only [bitwiseLoop, if_neg h2, if_pos h3] at h
        have := bitwiseLoop_count_le n f _ _ _ h
        omega
      · simp only [bitwiseLoop, if_neg h2, if_neg h3] at h
        have := bitwiseLoop_count_le n f _ _ _ h
        omega

/-- C1: for every bounded call of `solve` with `batch_size ≥ 1`,
`end ≥ start` and fuel covering the domain, the partition loop finishes
without blocking, the batches submitted (one eventual `BatchSummary` each)
number exactly `⌈(end - start) / batch_size⌉`, their `[start, end)` ranges
are pairwise disjoint (each ends no later than the next begins), and the
concatenation of their elements is exactly `[start, end)` — no gaps, no
overlaps, no duplicates; in particular `end = start` yields zero batches. -/
theorem C1_partition_tiling (s e bs fuel : Nat) (hbs : 1 ≤ bs) (hse : s ≤ e)
    (hfuel : e - s ≤ fuel) :
    (solve fuel s e bs).2 = true ∧
    (solve fuel s e bs).1.length = (e - s + bs - 1) / bs ∧
    coveredRange (solve fuel s e bs).1 = List.range' s (e - s) ∧
    ((solve fuel s e bs).1.Pairwise fun p q => p.2 ≤ q.1) ∧
    (e = s → (solve fuel s e bs).1 = []) := by
  obtain ⟨h1, h2, h3, _, h5⟩ := solve_batch_spec bs hbs fuel s e hfuel
  refine ⟨h1, h2, h3, h5, ?_⟩
  intro he
  rw [solve_empty fuel s e bs (by omega)]

/-- Witness for C1 at `solve(start = 1, end = 100, batch_size = 10)`:
10 batches tiling `[1, 100)`. -/
theorem C1_partition_tiling_witness :
    (solve 99 1 100 10).2 = true ∧
    (solve 99 1 100 10).1.length = (100 - 1 + 10 - 1) / 10 ∧
    coveredRange (solve 99 1 100 10).1 = List.range' 1 (100 - 1) ∧
    ((solve 99 1 100 10).1.Pairwise fun p q => p.2 ≤ q.1) ∧
    (100 = 1 → (solve 99 1 100 10).1 = []) :=
  C1_partition_tiling 1 100 10 99 (by decide) (by decide) (by decide)

/-- C2: the kernel variants `recursive` and `simple` return the identical
step count at every input and fuel (hence wherever the iteration reaches 1),
and the common value at `n = 27` is 111. -/
theorem C2_recursive_eq_simple :
    (∀ fuel num, recursive fuel num = simple fuel num) ∧
    recursive 111 27 = some 111 ∧ simple 111 27 = some 111 := by
  refine ⟨?_, by decide, by decide⟩
  intro fuel num
  exact recurseAux_map fuel num 0

/-- Witness for C2 at a concrete input. -/
theorem C2_recursive_eq_simple_witness : recursive 10 5 = simple 10 5 :=
  C2_recursive_eq_simple.1 10 5

/-- C3 counterexample: the worker's `max_steps` for the batch `[1, 10)` is 6,
the maximum of the non-canonical `bitwise` outputs, not the maximum 19 of the
canonical step counts `steps(1) .. steps(9)` — even though the canonical
`steps(7) = 16` quoted by the claim is itself correct. -/
theorem C3_counterexample_batch_max :
    batchMaxSteps 100 1 10 = some 6 ∧
    List.map (simple 100) (List.range' 1 9) =
      [some 0, some 1, some 7, some 2, some 5, some 8, some 16, some 3, some 19] ∧
    simple 100 7 = some 16 ∧
    ¬ batchMaxSteps 100 1 10 = some 19 :=
  ⟨by decide, by decide, by decide, by decide⟩

/-- C3 amended: the worker closure of `solve` invokes the non-canonical
`bitwise` kernel, so the `BatchSummary` for `[1, 10)` carries
`max_steps = 6`, the maximum of `bitwise(1) .. bitwise(9)` (and
`bitwise(7) = 6`). -/
theorem C3_amended_batch_max_bitwise :
    batchMaxSteps 100 1 10 = some 6 ∧
    List.map (bitwise 100) (List.range' 1 9) =
      [some 1, some 1, some 3, some 1, some 2, some 1, some 6, some 1, some 2] ∧
    bitwise 100 7 = some 6 :=
  ⟨by decide, by decide, by decide⟩

/-- C4 counterexample: at `n = 1` the variants `simple`, `recursive` and
`shortcut` all return 0, refuting the claimed lower bound `≥ 1` for every
`n ≥ 1`. -/
theorem C4_counterexample_n1 :
    simple 0 1 = some 0 ∧ recursive 0 1 = some 0 ∧ shortcut 0 1 = some 0 ∧
    ¬ (∀ fuel n c, 1 ≤ n → simple fuel n = some c → 1 ≤ c) := by
  refine ⟨by decide, by decide, by decide, ?_⟩
  intro hcl
  exact absurd (hcl 0 1 0 (by decide) (by decide)) (by decide)

/-- C4 amended: whenever they terminate, `recursive`, `simple` and `shortcut`
return at least 1 for every `n ≥ 2` but return 0 at `n = 1`, while
`faster_shortcut` and `bitwise` return at least 1 for every `n ≥ 1` (both
special-case `n = 1` to 1). -/
theorem C4_amended_kernel_lower_bounds :
    (∀ fuel n c, 2 ≤ n → simple fuel n = some c → 1 ≤ c) ∧
    (∀ fuel n c, 2 ≤ n → recursive fuel n = some c → 1 ≤ c) ∧
    (∀ fuel n c, 2 ≤ n → shortcut fuel n = some c → 1 ≤ c) ∧
    (∀ fuel n c, 1 ≤ n → faster_shortcut fuel n = some c → 1 ≤ c) ∧
    (∀ fuel n c, 1 ≤ n → bitwise fuel n = some c → 1 ≤ c) ∧
    (∀ fuel, simple fuel 1 = some 0 ∧ recursive fuel 1 = some 0 ∧
      shortcut fuel 1 = some 0 ∧ faster_shortcut fuel 1 = some 1 ∧
      bitwise fuel 1 = some 1) := by
  refine ⟨simple_pos, ?_, shortcut_pos, faster_shortcut_pos, bitwise_pos, ?_⟩
  · intro fuel n c hn h
    rw [recursive_eq_simple_fn] at h
    exact simple_pos fuel n c hn h
  · intro fuel
    refine ⟨simpleLoop_one fuel 0, ?_, shortcutLoop_one fuel 0, ?_, ?_⟩
    · rw [recursive_eq_simple_fn]
      exact simpleLoop_one fuel 0
    · simp [faster_shortcut]
    · simp [bitwise]

/-- Witness for C4 amended: `simple(7) = 16 ≥ 1` and `bitwise(7) = 6 ≥ 1`. -/
theorem C4_amended_kernel_lower_bounds_witness :
    simple 16 7 = some 16 ∧ (1 : Nat) ≤ 16 ∧ bitwise 10 7 = some 6 ∧ (1 : Nat) ≤ 6 :=
  ⟨by decide, C4_amended_kernel_lower_bounds.1 16 7 16 (by decide) (by decide),
   by decide, C4_amended_kernel_lower_bounds.2.2.2.2.1 10 7 6 (by decide) (by decide)⟩

/-- C5 counterexample: `solve` called with `end = 0` (start = 1,
batch_size = 10) submits zero batches and its loop terminates at once —
it treats 0 as a real (empty) upper bound instead of submitting batches
indefinitely. -/
theorem C5_counterexample_end_zero : solve 3 1 0 10 = ([], true) := by decide

/-- C5 amended: with `end = 0` the loop condition `batch_start < end` is
false immediately, so `solve` submits zero batches and returns at once; the
pseudo-unbounded mode is implemented outside `solve`, by `main` repeatedly
invoking it on successive bounded windows. -/
theorem C5_amended_end_zero_returns (fuel s bs : Nat) : solve fuel s 0 bs = ([], true) :=
  solve_end_zero fuel s bs

/-- Witness for C5 amended at a concrete input. -/
theorem C5_amended_end_zero_returns_witness : solve 8 4 0 9 = ([], true) :=
  C5_amended_end_zero_returns 8 4 9

/-- C6 counterexample: invalid domains are not rejected at `solve`'s entry:
with `batch_size = 0` and `start = 1 < 2 = end` the driver submits the
(empty) batch `[1, 1)` — work begins — and the loop never finishes, while
with `end = 3 < 5 = start` the call returns normally with zero batches
rather than signalling a precondition violation. -/
theorem C6_counterexample_no_validation :
    solve 1 1 2 0 = ([(1, 1)], false) ∧ solve 1 5 3 10 = ([], true) :=
  ⟨by decide, by decide⟩

/-- C6 amended: `solve` performs no entry validation: `end ≠ 0` with
`end < start` just yields zero batches and a normal return; `batch_size = 0`
with `end > start` is accepted and the partition loop never terminates; the
only validation in the program is in the CLI layer (`get_args`), which
rejects exactly `end > 0 && end < start` and checks neither the batch size
nor the worker count. -/
theorem C6_amended_no_entry_validation :
    (∀ fuel s e bs, e ≤ s → solve fuel s e bs = ([], true)) ∧
    (∀ fuel s e, s < e → (solve fuel s e 0).2 = false) ∧
    (∀ s e, get_args_ok s e = false ↔ (0 < e ∧ e < s)) := by
  refine ⟨fun fuel s e bs h => solve_empty fuel s e bs h, solve_bs_zero, ?_⟩
  intro s e
  by_cases h : 0 < e ∧ e < s <;> simp [get_args_ok, h]

/-- Witness for C6 amended at concrete inputs. -/
theorem C6_amended_no_entry_validation_witness :
    solve 2 5 3 10 = ([], true) ∧ (solve 4 1 2 0).2 = false ∧
    (get_args_ok 5 3 = false ↔ (0 < 3 ∧ 3 < 5)) :=
  ⟨C6_amended_no_entry_validation.1 2 5 3 10 (by decide),
   C6_amended_no_entry_validation.2.1 4 1 2 (by decide),
   C6_amended_no_entry_validation.2.2 5 3⟩

/-- C7 counterexample: there is no unbounded run to throttle: a `solve` call
with the unbounded sentinel (`end = 0`, start = 1, batch_size = 10) submits
zero batches and finishes immediately, so the Driver never performs the
claimed backpressure pauses against a worker-count threshold. -/
theorem C7_counterexample_no_backpressure : solve 100 1 0 10 = ([], true) := by decide

/-- C7 amended: the Driver implements no backpressure: with `end = 0` it
submits nothing and returns, and in a bounded run it submits every one of
the `⌈(end - start) / batch_size⌉` batches eagerly — the submission trace
depends only on `start`, `end` and `batch_size`, never paused or bounded by
any multiple of the worker count. -/
theorem C7_amended_no_backpressure :
    (∀ fuel s bs, (solve fuel s 0 bs).1.length = 0) ∧
    (∀ fuel s e bs, 1 ≤ bs → e - s ≤ fuel →
      (solve fuel s e bs).1.length = (e - s + bs - 1) / bs) := by
  constructor
  · intro fuel s bs
    rw [solve_end_zero fuel s bs]
    rfl
  · intro fuel s e bs hbs hf
    exact (solve_batch_spec bs hbs fuel s e hf).2.1

/-- Witness for C7 amended at concrete inputs. -/
theorem C7_amended_no_backpressure_witness :
    (solve 50 7 0 5).1.length = 0 ∧
    (solve 99 1 100 10).1.length = (100 - 1 + 10 - 1) / 10 :=
  ⟨C7_amended_no_backpressure.1 50 7 5,
   C7_amended_no_backpressure.2 99 1 100 10 (by decide) (by decide)⟩

/-- C8: when the consumer side of the result channel is gone, a worker whose
kernel loop completed performs exactly one send attempt, which fails, and
aborts with the fatal `expect` panic ("channel broken!"); the summary is
never retried or redelivered. -/
theorem C8_worker_send_failure_panics (fuel s e m : Nat)
    (h : batchMaxSteps fuel s e = some m) :
    workerBody fuel s e false = some (1, SendOutcome.panicked) := by
  simp [workerBody, h, channelSend]

/-- Witness for C8 on the batch `[1, 10)` with a dead receiver. -/
theorem C8_worker_send_failure_panics_witness :
    workerBody 100 1 10 false = some (1, SendOutcome.panicked) :=
  C8_worker_send_failure_panics 100 1 10 6 (by decide)

/-- C9: the partition loop terminates for every input with `batch_size ≥ 1`
(fuel `end - start`, an iteration bound, suffices) after submitting exactly
`⌈(end - start) / batch_size⌉` batches — one loop iteration per batch —
while with `batch_size = 0` and `end > start` the cursor never advances and
no amount of fuel finishes the loop. -/
theorem C9_loop_termination :
    (∀ fuel s e bs, 1 ≤ bs → e - s ≤ fuel →
      (solve fuel s e bs).2 = true ∧
      (solve fuel s e bs).1.length = (e - s + bs - 1) / bs) ∧
    (∀ fuel s e, s < e → (solve fuel s e 0).2 = false) := by
  constructor
  · intro fuel s e bs hbs hf
    obtain ⟨h1, h2, _, _, _⟩ := solve_batch_spec bs hbs fuel s e hf
    exact ⟨h1, h2⟩
  · exact solve_bs_zero

/-- Witness for C9 at concrete inputs. -/
theorem C9_loop_termination_witness :
    ((solve 9 1 10 3).2 = true ∧ (solve 9 1 10 3).1.length = (10 - 1 + 3 - 1) / 3) ∧
    (solve 6 1 2 0).2 = false :=
  ⟨C9_loop_termination.1 9 1 10 3 (by decide) (by decide),
   C9_loop_termination.2 6 1 2 (by decide)⟩

/-- C10: `shortcut` computes the same canonical step count as `simple`: some
fuel makes `shortcut` return `c` on `num` exactly when some fuel makes
`simple` return `c` (the `+2` counting of the combined odd step restores the
canonical count), and both give 111 at `num = 27`. -/
theorem C10_shortcut_eq_simple :
    (∀ num c, (∃ f, shortcut f num = some c) ↔ (∃ f, simple f num = some c)) ∧
    shortcut 111 27 = some 111 ∧ simple 111 27 = some 111 := by
  refine ⟨?_, by decide, by decide⟩
  intro num c
  constructor
  · rintro ⟨f, hf⟩
    exact ⟨2 * f, shortcutLoop_to_simpleLoop f num 0 c hf⟩
  · rintro ⟨f, hf⟩
    exact ⟨f, simpleLoop_to_shortcutLoop f num 0 c hf⟩

/-- Witness for C10 at `num = 27`, `c = 111`. -/
theorem C10_shortcut_eq_simple_witness :
    (∃ f, shortcut f 27 = some 111) ↔ (∃ f, simple f 27 = some 111) :=
  C10_shortcut_eq_simple.1 27 111

end Collatz
